import Mathlib

/-!
Verification of the curve-mathematics core of the Numerical-Splines editor
(src/main.rs). Machine floats (f32) are embedded as exact real numbers; the
f32 square root becomes Real.sqrt. Fallible operations (Rust indexing and
Vec removal, which panic when out of bounds) are embedded as Option-valued
functions, with none standing for a panic.
-/

namespace Bezier

noncomputable section

/-- CONTROLPOINT_RADIUS constant (src line 3). -/
def CONTROLPOINT_RADIUS : ℝ := 10

/-- Two dimensional vector of f32, embedded over the reals (glam Vec2). -/
@[ext] structure Vec2 where
  x : ℝ
  y : ℝ

/-- Componentwise addition on Vec2. -/
def Vec2.add (a b : Vec2) : Vec2 := ⟨a.x + b.x, a.y + b.y⟩

/-- Componentwise subtraction on Vec2. -/
def Vec2.sub (a b : Vec2) : Vec2 := ⟨a.x - b.x, a.y - b.y⟩

/-- Scalar multiplication on Vec2. -/
def Vec2.smul (a : Vec2) (s : ℝ) : Vec2 := ⟨a.x * s, a.y * s⟩

/-- glam Vec2::lerp: self + ((rhs - self) * s). -/
def Vec2.lerp (a b : Vec2) (t : ℝ) : Vec2 := a.add ((b.sub a).smul t)

/-- RGBA color with f32 components embedded over the reals (macroquad Color). -/
@[ext] structure Color where
  r : ℝ
  g : ℝ
  b : ℝ
  a : ℝ

/-- Color::from_vec(self.to_vec().lerp(other.to_vec(), t)): the color treated
as a 4-vector and interpolated componentwise with the glam lerp formula. -/
def Color.lerpVec (c d : Color) (t : ℝ) : Color :=
  ⟨c.r + (d.r - c.r) * t, c.g + (d.g - c.g) * t,
   c.b + (d.b - c.b) * t, c.a + (d.a - c.a) * t⟩

/-- macroquad palette constants used by the program (values from macroquad). -/
def ORANGE : Color := ⟨1, 0.63, 0, 1⟩

/-- macroquad BLUE. -/
def BLUE : Color := ⟨0, 0.47, 0.95, 1⟩

/-- macroquad RED. -/
def RED : Color := ⟨0.9, 0.16, 0.22, 1⟩

/-- macroquad PURPLE. -/
def PURPLE : Color := ⟨0.78, 0.48, 1, 1⟩

/-- A control point: position plus color (src lines 4-8). -/
@[ext] structure Point where
  pos : Vec2
  color : Color

/-- Point::lerp (src lines 21-26): position and color interpolated
independently with the same parameter. -/
def Point.lerp (p other : Point) (t : ℝ) : Point :=
  ⟨p.pos.lerp other.pos t, p.color.lerpVec other.color t⟩

/-- A segment: the 4-point window [points[0], points[1], points[2], points[3]]
that the slice-taking functions of the source index into. -/
@[ext] structure Seg where
  p0 : Point
  p1 : Point
  p2 : Point
  p3 : Point

/-- decasteljau (src lines 30-44): B(t) by repeated linear interpolation,
collapsing 4 points to 1; both position and color are interpolated. -/
def decasteljau (points : Seg) (t : ℝ) : Point :=
  let a := points.p0
  let b := points.p1
  let c := points.p2
  let d := points.p3
  let ab := a.lerp b t
  let bc := b.lerp c t
  let cd := c.lerp d t
  let abc := ab.lerp bc t
  let bcd := bc.lerp cd t
  abc.lerp bcd t

/-- cubic_bezier (src lines 47-52): B(t) in Bernstein polynomial form,
position only. -/
def cubic_bezier (t : ℝ) (points : Seg) : Vec2 :=
  (((points.p0.pos.smul (-t^3 + 3*t^2 - 3*t + 1)).add
    (points.p1.pos.smul (3*t^3 - 6*t^2 + 3*t))).add
    (points.p2.pos.smul (-3*t^3 + 3*t^2))).add
    (points.p3.pos.smul (t^3))

/-- The closure of Curve::render for the polynomial mode (src lines 198-202):
position from cubic_bezier, color a single top-level interpolation between the
two anchor colors only. -/
def bernsteinPoint (points : Seg) (t : ℝ) : Point :=
  ⟨cubic_bezier t points, points.p0.color.lerpVec points.p3.color t⟩

/-- The segment evaluator selected by Curve::render (src lines 196-203):
recursive De Casteljau when use_casteljau holds, Bernstein otherwise. -/
def bezierEval (use_casteljau : Bool) (points : Seg) (t : ℝ) : Point :=
  if use_casteljau then decasteljau points t else bernsteinPoint points t

/-- f32::MAX embedded exactly: (2^24 - 1) * 2^104. -/
def f32MAX : ℝ := (2^24 - 1) * 2^104

/-- f32::MIN embedded exactly: the negation of f32::MAX. -/
def f32MIN : ℝ := -f32MAX

/-- Curve::bounding_box (src lines 122-135): min/max reduction over a point
list, with accumulators seeded at (f32::MAX, f32::MAX) and (f32::MIN, f32::MIN). -/
def bounding_box (points : List Point) : Vec2 × Vec2 :=
  points.foldl
    (fun acc p =>
      (⟨min acc.1.x p.pos.x, min acc.1.y p.pos.y⟩,
       ⟨max acc.2.x p.pos.x, max acc.2.y p.pos.y⟩))
    (⟨f32MAX, f32MAX⟩, ⟨f32MIN, f32MIN⟩)

/-- Coefficient a of the per-axis derivative-zero quadratic (src line 74). -/
def quadA (x0 x1 x2 x3 : ℝ) : ℝ := (-3) * x0 + 9 * x1 - 9 * x2 + 3 * x3

/-- Coefficient b of the per-axis derivative-zero quadratic (src line 75). -/
def quadB (x0 x1 x2 : ℝ) : ℝ := 6 * x0 - 12 * x1 + 6 * x2

/-- Coefficient c of the per-axis derivative-zero quadratic (src line 76). -/
def quadC (x0 x1 : ℝ) : ℝ := (-3) * x0 + 3 * x1

/-- solve_quadratic (src lines 71-87): per-axis derivative-zero solver. When
delta is nonnegative it returns the pair of roots, dividing by 2a with no
guard on a = 0 (in the real-number embedding division by zero yields 0; the
f32 source produces NaN or an infinity there). When delta is negative it
returns none. -/
def solve_quadratic (x0 x1 x2 x3 : ℝ) : Option (ℝ × ℝ) :=
  let a := quadA x0 x1 x2 x3
  let b := quadB x0 x1 x2
  let c := quadC x0 x1
  let delta := b * b - 4 * a * c
  if delta ≥ 0 then
    some (((-b) + Real.sqrt delta) / (2 * a), ((-b) - Real.sqrt delta) / (2 * a))
  else
    none

/-- The x-axis expansion block of Curve::tight_bounding_box (src lines
141-164): solve the x-axis quadratic and, for each returned root inside the
Rust range 0.0..1.0 (half open), expand the x extents of the box by the x
coordinate of the curve position at that root. -/
def expandX (points : Seg) (box : Vec2 × Vec2) : Vec2 × Vec2 :=
  match solve_quadratic points.p0.pos.x points.p1.pos.x points.p2.pos.x
      points.p3.pos.x with
  | none => box
  | some (tx0, tx1) =>
    let box1 :=
      if 0 ≤ tx0 ∧ tx0 < 1 then
        let candidate := cubic_bezier tx0 points
        (⟨min box.1.x candidate.x, box.1.y⟩, ⟨max box.2.x candidate.x, box.2.y⟩)
      else box
    if 0 ≤ tx1 ∧ tx1 < 1 then
      let candidate := cubic_bezier tx1 points
      (⟨min box1.1.x candidate.x, box1.1.y⟩, ⟨max box1.2.x candidate.x, box1.2.y⟩)
    else box1

/-- The y-axis expansion block of Curve::tight_bounding_box (src lines
166-189), symmetric to the x block. -/
def expandY (points : Seg) (box : Vec2 × Vec2) : Vec2 × Vec2 :=
  match solve_quadratic points.p0.pos.y points.p1.pos.y points.p2.pos.y
      points.p3.pos.y with
  | none => box
  | some (ty0, ty1) =>
    let box1 :=
      if 0 ≤ ty0 ∧ ty0 < 1 then
        let candidate := cubic_bezier ty0 points
        (⟨box.1.x, min box.1.y candidate.y⟩, ⟨box.2.x, max box.2.y candidate.y⟩)
      else box
    if 0 ≤ ty1 ∧ ty1 < 1 then
      let candidate := cubic_bezier ty1 points
      (⟨box1.1.x, min box1.1.y candidate.y⟩, ⟨box1.2.x, max box1.2.y candidate.y⟩)
    else box1

/-- Curve::tight_bounding_box (src lines 138-192): seed with the coarse box
of the two anchors only, then run the per-axis expansions in order. -/
def tight_bounding_box (points : Seg) : Vec2 × Vec2 :=
  expandY points (expandX points (bounding_box [points.p0, points.p3]))

/-- The roots of an axis solve for which the expansion body of
tight_bounding_box runs, as filtered by the in-range guards (src lines 143,
154, 168 and 179). -/
def filteredRoots (r : Option (ℝ × ℝ)) : List ℝ :=
  match r with
  | none => []
  | some (t0, t1) =>
    (if 0 ≤ t0 ∧ t0 < 1 then [t0] else []) ++
    (if 0 ≤ t1 ∧ t1 < 1 then [t1] else [])

/-- The x-axis roots that tight_bounding_box actually uses to expand the box. -/
def usedRootsX (points : Seg) : List ℝ :=
  filteredRoots (solve_quadratic points.p0.pos.x points.p1.pos.x
    points.p2.pos.x points.p3.pos.x)

/-- The y-axis roots that tight_bounding_box actually uses to expand the box. -/
def usedRootsY (points : Seg) : List ℝ :=
  filteredRoots (solve_quadratic points.p0.pos.y points.p1.pos.y
    points.p2.pos.y points.p3.pos.y)

/-- Claim C1: for every segment of 4 control points and every parameter t,
the position computed by the recursive De Casteljau evaluator equals the
position computed by the direct Bernstein polynomial evaluator (exact real
arithmetic); in particular this holds for every t in [0,1]. -/
theorem decasteljau_pos_eq_cubic_bezier (points : Seg) (t : ℝ) :
    (decasteljau points t).pos = cubic_bezier t points := by
  obtain ⟨⟨⟨x0, y0⟩, c0⟩, ⟨⟨x1, y1⟩, c1⟩, ⟨⟨x2, y2⟩, c2⟩, ⟨⟨x3, y3⟩, c3⟩⟩ := points
  simp only [decasteljau, cubic_bezier, Point.lerp, Vec2.lerp, Vec2.add,
    Vec2.sub, Vec2.smul]
  ext <;> ring

/-- Claim C5: evaluating a segment at t = 0 yields exactly the start anchor
(position and color) and at t = 1 exactly the end anchor, under both the
recursive and the polynomial evaluation modes. -/
theorem eval_endpoints_exact (points : Seg) :
    bezierEval true points 0 = points.p0 ∧
    bezierEval true points 1 = points.p3 ∧
    bezierEval false points 0 = points.p0 ∧
    bezierEval false points 1 = points.p3 := by
  obtain ⟨⟨⟨x0, y0⟩, ⟨r0, g0, b0, a0⟩⟩, ⟨⟨x1, y1⟩, ⟨r1, g1, b1, a1⟩⟩,
    ⟨⟨x2, y2⟩, ⟨r2, g2, b2, a2⟩⟩, ⟨⟨x3, y3⟩, ⟨r3, g3, b3, a3⟩⟩⟩ := points
  refine ⟨?_, ?_, ?_, ?_⟩ <;>
    · simp only [bezierEval, decasteljau, bernsteinPoint, cubic_bezier,
        Point.lerp, Vec2.lerp, Vec2.add, Vec2.sub, Vec2.smul, Color.lerpVec,
        if_true, Bool.false_eq_true, if_false]
      ext <;> ring

/-- Claim C10: the coarse bounding-box reduction applied to the empty point
list returns the inverted box ((f32::MAX, f32::MAX), (f32::MIN, f32::MIN)),
whose min components lie strictly above its max components. -/
theorem bounding_box_empty_inverted :
    bounding_box [] = (⟨f32MAX, f32MAX⟩, ⟨f32MIN, f32MIN⟩) ∧ f32MIN < f32MAX := by
  constructor
  · rfl
  · simp only [f32MIN, f32MAX]
    norm_num

/-- Lower convexity bound for the Bernstein position on the x axis. -/
lemma cubic_bezier_x_ge (points : Seg) (t m : ℝ) (h0 : 0 ≤ t) (h1 : t ≤ 1)
    (hx0 : m ≤ points.p0.pos.x) (hx1 : m ≤ points.p1.pos.x)
    (hx2 : m ≤ points.p2.pos.x) (hx3 : m ≤ points.p3.pos.x) :
    m ≤ (cubic_bezier t points).x := by
  simp only [cubic_bezier, Vec2.add, Vec2.smul]
  nlinarith [mul_nonneg (pow_nonneg (by linarith : (0:ℝ) ≤ 1 - t) 3)
      (by linarith : 0 ≤ points.p0.pos.x - m),
    mul_nonneg (mul_nonneg h0 (pow_nonneg (by linarith : (0:ℝ) ≤ 1 - t) 2))
      (by linarith : 0 ≤ points.p1.pos.x - m),
    mul_nonneg (mul_nonneg (pow_nonneg h0 2) (by linarith : (0:ℝ) ≤ 1 - t))
      (by linarith : 0 ≤ points.p2.pos.x - m),
    mul_nonneg (pow_nonneg h0 3) (by linarith : 0 ≤ points.p3.pos.x - m)]

/-- Upper convexity bound for the Bernstein position on the x axis. -/
lemma cubic_bezier_x_le (points : Seg) (t M : ℝ) (h0 : 0 ≤ t) (h1 : t ≤ 1)
    (hx0 : points.p0.pos.x ≤ M) (hx1 : points.p1.pos.x ≤ M)
    (hx2 : points.p2.pos.x ≤ M) (hx3 : points.p3.pos.x ≤ M) :
    (cubic_bezier t points).x ≤ M := by
  simp only [cubic_bezier, Vec2.add, Vec2.smul]
  nlinarith [mul_nonneg (pow_nonneg (by linarith : (0:ℝ) ≤ 1 - t) 3)
      (by linarith : 0 ≤ M - points.p0.pos.x),
    mul_nonneg (mul_nonneg h0 (pow_nonneg (by linarith : (0:ℝ) ≤ 1 - t) 2))
      (by linarith : 0 ≤ M - points.p1.pos.x),
    mul_nonneg (mul_nonneg (pow_nonneg h0 2) (by linarith : (0:ℝ) ≤ 1 - t))
      (by linarith : 0 ≤ M - points.p2.pos.x),
    mul_nonneg (pow_nonneg h0 3) (by linarith : 0 ≤ M - points.p3.pos.x)]

/-- Lower convexity bound for the Bernstein position on the y axis. -/
lemma cubic_bezier_y_ge (points : Seg) (t m : ℝ) (h0 : 0 ≤ t) (h1 : t ≤ 1)
    (hy0 : m ≤ points.p0.pos.y) (hy1 : m ≤ points.p1.pos.y)
    (hy2 : m ≤ points.p2.pos.y) (hy3 : m ≤ points.p3.pos.y) :
    m ≤ (cubic_bezier t points).y := by
  simp only [cubic_bezier, Vec2.add, Vec2.smul]
  nlinarith [mul_nonneg (pow_nonneg (by linarith : (0:ℝ) ≤ 1 - t) 3)
      (by linarith : 0 ≤ points.p0.pos.y - m),
    mul_nonneg (mul_nonneg h0 (pow_nonneg (by linarith : (0:ℝ) ≤ 1 - t) 2))
      (by linarith : 0 ≤ points.p1.pos.y - m),
    mul_nonneg (mul_nonneg (pow_nonneg h0 2) (by linarith : (0:ℝ) ≤ 1 - t))
      (by linarith : 0 ≤ points.p2.pos.y - m),
    mul_nonneg (pow_nonneg h0 3) (by linarith : 0 ≤ points.p3.pos.y - m)]

/-- Upper convexity bound for the Bernstein position on the y axis. -/
lemma cubic_bezier_y_le (points : Seg) (t M : ℝ) (h0 : 0 ≤ t) (h1 : t ≤ 1)
    (hy0 : points.p0.pos.y ≤ M) (hy1 : points.p1.pos.y ≤ M)
    (hy2 : points.p2.pos.y ≤ M) (hy3 : points.p3.pos.y ≤ M) :
    (cubic_bezier t points).y ≤ M := by
  simp only [cubic_bezier, Vec2.add, Vec2.smul]
  nlinarith [mul_nonneg (pow_nonneg (by linarith : (0:ℝ) ≤ 1 - t) 3)
      (by linarith : 0 ≤ M - points.p0.pos.y),
    mul_nonneg (mul_nonneg h0 (pow_nonneg (by linarith : (0:ℝ) ≤ 1 - t) 2))
      (by linarith : 0 ≤ M - points.p1.pos.y),
    mul_nonneg (mul_nonneg (pow_nonneg h0 2) (by linarith : (0:ℝ) ≤ 1 - t))
      (by linarith : 0 ≤ M - points.p2.pos.y),
    mul_nonneg (pow_nonneg h0 3) (by linarith : 0 ≤ M - points.p3.pos.y)]

/-- The x expansion leaves the y components of the box unchanged. -/
lemma expandX_preserves_y (points : Seg) (box : Vec2 × Vec2) :
    (expandX points box).1.y = box.1.y ∧ (expandX points box).2.y = box.2.y := by
  unfold expandX
  cases solve_quadratic points.p0.pos.x points.p1.pos.x points.p2.pos.x
      points.p3.pos.x with
  | none => exact ⟨rfl, rfl⟩
  | some r =>
    obtain ⟨t0, t1⟩ := r
    dsimp only
    split_ifs <;> exact ⟨rfl, rfl⟩

/-- The y expansion leaves the x components of the box unchanged. -/
lemma expandY_preserves_x (points : Seg) (box : Vec2 × Vec2) :
    (expandY points box).1.x = box.1.x ∧ (expandY points box).2.x = box.2.x := by
  unfold expandY
  cases solve_quadratic points.p0.pos.y points.p1.pos.y points.p2.pos.y
      points.p3.pos.y with
  | none => exact ⟨rfl, rfl⟩
  | some r =>
    obtain ⟨t0, t1⟩ := r
    dsimp only
    split_ifs <;> exact ⟨rfl, rfl⟩

/-- The x expansion keeps the x extents inside any interval that contains the
input box x extents and all four control x coordinates. -/
lemma expandX_bounds (points : Seg) (box : Vec2 × Vec2) (L U : ℝ)
    (hmin : L ≤ box.1.x) (hmax : box.2.x ≤ U)
    (h0 : L ≤ points.p0.pos.x) (h1 : L ≤ points.p1.pos.x)
    (h2 : L ≤ points.p2.pos.x) (h3 : L ≤ points.p3.pos.x)
    (g0 : points.p0.pos.x ≤ U) (g1 : points.p1.pos.x ≤ U)
    (g2 : points.p2.pos.x ≤ U) (g3 : points.p3.pos.x ≤ U) :
    L ≤ (expandX points box).1.x ∧ (expandX points box).2.x ≤ U := by
  unfold expandX
  cases solve_quadratic points.p0.pos.x points.p1.pos.x points.p2.pos.x
      points.p3.pos.x with
  | none => exact ⟨hmin, hmax⟩
  | some r =>
    obtain ⟨t0, t1⟩ := r
    dsimp only
    by_cases ht0 : 0 ≤ t0 ∧ t0 < 1 <;> by_cases ht1 : 0 ≤ t1 ∧ t1 < 1 <;>
      simp only [ht0, ht1, if_true, if_false]
    · exact ⟨le_min (le_min hmin
          (cubic_bezier_x_ge points t0 L ht0.1 (le_of_lt ht0.2) h0 h1 h2 h3))
          (cubic_bezier_x_ge points t1 L ht1.1 (le_of_lt ht1.2) h0 h1 h2 h3),
        max_le (max_le hmax
          (cubic_bezier_x_le points t0 U ht0.1 (le_of_lt ht0.2) g0 g1 g2 g3))
          (cubic_bezier_x_le points t1 U ht1.1 (le_of_lt ht1.2) g0 g1 g2 g3)⟩
    · exact ⟨le_min hmin
          (cubic_bezier_x_ge points t0 L ht0.1 (le_of_lt ht0.2) h0 h1 h2 h3),
        max_le hmax
          (cubic_bezier_x_le points t0 U ht0.1 (le_of_lt ht0.2) g0 g1 g2 g3)⟩
    · exact ⟨le_min hmin
          (cubic_bezier_x_ge points t1 L ht1.1 (le_of_lt ht1.2) h0 h1 h2 h3),
        max_le hmax
          (cubic_bezier_x_le points t1 U ht1.1 (le_of_lt ht1.2) g0 g1 g2 g3)⟩
    · exact ⟨hmin, hmax⟩

/-- The y expansion keeps the y extents inside any interval that contains the
input box y extents and all four control y coordinates. -/
lemma expandY_bounds (points : Seg) (box : Vec2 × Vec2) (L U : ℝ)
    (hmin : L ≤ box.1.y) (hmax : box.2.y ≤ U)
    (h0 : L ≤ points.p0.pos.y) (h1 : L ≤ points.p1.pos.y)
    (h2 : L ≤ points.p2.pos.y) (h3 : L ≤ points.p3.pos.y)
    (g0 : points.p0.pos.y ≤ U) (g1 : points.p1.pos.y ≤ U)
    (g2 : points.p2.pos.y ≤ U) (g3 : points.p3.pos.y ≤ U) :
    L ≤ (expandY points box).1.y ∧ (expandY points box).2.y ≤ U := by
  unfold expandY
  cases solve_quadratic points.p0.pos.y points.p1.pos.y points.p2.pos.y
      points.p3.pos.y with
  | none => exact ⟨hmin, hmax⟩
  | some r =>
    obtain ⟨t0, t1⟩ := r
    dsimp only
    by_cases ht0 : 0 ≤ t0 ∧ t0 < 1 <;> by_cases ht1 : 0 ≤ t1 ∧ t1 < 1 <;>
      simp only [ht0, ht1, if_true, if_false]
    · exact ⟨le_min (le_min hmin
          (cubic_bezier_y_ge points t0 L ht0.1 (le_of_lt ht0.2) h0 h1 h2 h3))
          (cubic_bezier_y_ge points t1 L ht1.1 (le_of_lt ht1.2) h0 h1 h2 h3),
        max_le (max_le hmax
          (cubic_bezier_y_le points t0 U ht0.1 (le_of_lt ht0.2) g0 g1 g2 g3))
          (cubic_bezier_y_le points t1 U ht1.1 (le_of_lt ht1.2) g0 g1 g2 g3)⟩
    · exact ⟨le_min hmin
          (cubic_bezier_y_ge points t0 L ht0.1 (le_of_lt ht0.2) h0 h1 h2 h3),
        max_le hmax
          (cubic_bezier_y_le points t0 U ht0.1 (le_of_lt ht0.2) g0 g1 g2 g3)⟩
    · exact ⟨le_min hmin
          (cubic_bezier_y_ge points t1 L ht1.1 (le_of_lt ht1.2) h0 h1 h2 h3),
        max_le hmax
          (cubic_bezier_y_le points t1 U ht1.1 (le_of_lt ht1.2) g0 g1 g2 g3)⟩
    · exact ⟨hmin, hmax⟩

/-- Claim C2: for every segment of 4 control points, the tight bounding box
is contained in the coarse bounding box computed over all 4 control points:
tight min at least coarse min and tight max at most coarse max, componentwise,
for every control point configuration. -/
theorem tight_box_within_coarse (points : Seg) :
    (bounding_box [points.p0, points.p1, points.p2, points.p3]).1.x ≤
      (tight_bounding_box points).1.x ∧
    (bounding_box [points.p0, points.p1, points.p2, points.p3]).1.y ≤
      (tight_bounding_box points).1.y ∧
    (tight_bounding_box points).2.x ≤
      (bounding_box [points.p0, points.p1, points.p2, points.p3]).2.x ∧
    (tight_bounding_box points).2.y ≤
      (bounding_box [points.p0, points.p1, points.p2, points.p3]).2.y := by
  have hC : bounding_box [points.p0, points.p1, points.p2, points.p3] =
      (⟨min (min (min (min f32MAX points.p0.pos.x) points.p1.pos.x)
          points.p2.pos.x) points.p3.pos.x,
        min (min (min (min f32MAX points.p0.pos.y) points.p1.pos.y)
          points.p2.pos.y) points.p3.pos.y⟩,
       ⟨max (max (max (max f32MIN points.p0.pos.x) points.p1.pos.x)
          points.p2.pos.x) points.p3.pos.x,
        max (max (max (max f32MIN points.p0.pos.y) points.p1.pos.y)
          points.p2.pos.y) points.p3.pos.y⟩) := rfl
  have hS : bounding_box [points.p0, points.p3] =
      (⟨min (min f32MAX points.p0.pos.x) points.p3.pos.x,
        min (min f32MAX points.p0.pos.y) points.p3.pos.y⟩,
       ⟨max (max f32MIN points.p0.pos.x) points.p3.pos.x,
        max (max f32MIN points.p0.pos.y) points.p3.pos.y⟩) := rfl
  have hLx0 : (bounding_box [points.p0, points.p1, points.p2, points.p3]).1.x ≤
      points.p0.pos.x := by rw [hC]; simp [min_le_iff]
  have hLx1 : (bounding_box [points.p0, points.p1, points.p2, points.p3]).1.x ≤
      points.p1.pos.x := by rw [hC]; simp [min_le_iff]
  have hLx2 : (bounding_box [points.p0, points.p1, points.p2, points.p3]).1.x ≤
      points.p2.pos.x := by rw [hC]; simp [min_le_iff]
  have hLx3 : (bounding_box [points.p0, points.p1, points.p2, points.p3]).1.x ≤
      points.p3.pos.x := by rw [hC]; simp [min_le_iff]
  have hLxM : (bounding_box [points.p0, points.p1, points.p2, points.p3]).1.x ≤
      f32MAX := by rw [hC]; simp [min_le_iff]
  have hUx0 : points.p0.pos.x ≤
      (bounding_box [points.p0, points.p1, points.p2, points.p3]).2.x := by
    rw [hC]; simp [le_max_iff]
  have hUx1 : points.p1.pos.x ≤
      (bounding_box [points.p0, points.p1, points.p2, points.p3]).2.x := by
    rw [hC]; simp [le_max_iff]
  have hUx2 : points.p2.pos.x ≤
      (bounding_box [points.p0, points.p1, points.p2, points.p3]).2.x := by
    rw [hC]; simp [le_max_iff]
  have hUx3 : points.p3.pos.x ≤
      (bounding_box [points.p0, points.p1, points.p2, points.p3]).2.x := by
    rw [hC]; simp [le_max_iff]
  have hUxM : f32MIN ≤
      (bounding_box [points.p0, points.p1, points.p2, points.p3]).2.x := by
    rw [hC]; simp [le_max_iff]
  have hLy0 : (bounding_box [points.p0, points.p1, points.p2, points.p3]).1.y ≤
      points.p0.pos.y := by rw [hC]; simp [min_le_iff]
  have hLy1 : (bounding_box [points.p0, points.p1, points.p2, points.p3]).1.y ≤
      points.p1.pos.y := by rw [hC]; simp [min_le_iff]
  have hLy2 : (bounding_box [points.p0, points.p1, points.p2, points.p3]).1.y ≤
      points.p2.pos.y := by rw [hC]; simp [min_le_iff]
  have hLy3 : (bounding_box [points.p0, points.p1, points.p2, points.p3]).1.y ≤
      points.p3.pos.y := by rw [hC]; simp [min_le_iff]
  have hLyM : (bounding_box [points.p0, points.p1, points.p2, points.p3]).1.y ≤
      f32MAX := by rw [hC]; simp [min_le_iff]
  have hUy0 : points.p0.pos.y ≤
      (bounding_box [points.p0, points.p1, points.p2, points.p3]).2.y := by
    rw [hC]; simp [le_max_iff]
  have hUy1 : points.p1.pos.y ≤
      (bounding_box [points.p0, points.p1, points.p2, points.p3]).2.y := by
    rw [hC]; simp [le_max_iff]
  have hUy2 : points.p2.pos.y ≤
      (bounding_box [points.p0, points.p1, points.p2, points.p3]).2.y := by
    rw [hC]; simp [le_max_iff]
  have hUy3 : points.p3.pos.y ≤
      (bounding_box [points.p0, points.p1, points.p2, points.p3]).2.y := by
    rw [hC]; simp [le_max_iff]
  have hUyM : f32MIN ≤
      (bounding_box [points.p0, points.p1, points.p2, points.p3]).2.y := by
    rw [hC]; simp [le_max_iff]
  have hseedLx : (bounding_box [points.p0, points.p1, points.p2, points.p3]).1.x ≤
      (bounding_box [points.p0, points.p3]).1.x := by
    rw [hS]; exact le_min (le_min hLxM hLx0) hLx3
  have hseedUx : (bounding_box [points.p0, points.p3]).2.x ≤
      (bounding_box [points.p0, points.p1, points.p2, points.p3]).2.x := by
    rw [hS]; exact max_le (max_le hUxM hUx0) hUx3
  have hseedLy : (bounding_box [points.p0, points.p1, points.p2, points.p3]).1.y ≤
      (bounding_box [points.p0, points.p3]).1.y := by
    rw [hS]; exact le_min (le_min hLyM hLy0) hLy3
  have hseedUy : (bounding_box [points.p0, points.p3]).2.y ≤
      (bounding_box [points.p0, points.p1, points.p2, points.p3]).2.y := by
    rw [hS]; exact max_le (max_le hUyM hUy0) hUy3
  have hx := expandX_bounds points (bounding_box [points.p0, points.p3])
    (bounding_box [points.p0, points.p1, points.p2, points.p3]).1.x
    (bounding_box [points.p0, points.p1, points.p2, points.p3]).2.x
    hseedLx hseedUx hLx0 hLx1 hLx2 hLx3 hUx0 hUx1 hUx2 hUx3
  have hxy := expandX_preserves_y points (bounding_box [points.p0, points.p3])
  have hy := expandY_bounds points
    (expandX points (bounding_box [points.p0, points.p3]))
    (bounding_box [points.p0, points.p1, points.p2, points.p3]).1.y
    (bounding_box [points.p0, points.p1, points.p2, points.p3]).2.y
    (by rw [hxy.1]; exact hseedLy) (by rw [hxy.2]; exact hseedUy)
    hLy0 hLy1 hLy2 hLy3 hUy0 hUy1 hUy2 hUy3
  have hyx := expandY_preserves_x points
    (expandX points (bounding_box [points.p0, points.p3]))
  refine ⟨?_, hy.1, ?_, hy.2⟩
  · rw [tight_bounding_box, hyx.1]; exact hx.1
  · rw [tight_bounding_box, hyx.2]; exact hx.2

/-- Every used root satisfies the half-open range check of the source. -/
lemma filteredRoots_mem (r : Option (ℝ × ℝ)) (t : ℝ) (h : t ∈ filteredRoots r) :
    0 ≤ t ∧ t < 1 := by
  match r with
  | none => simp [filteredRoots] at h
  | some (t0, t1) =>
    simp only [filteredRoots, List.mem_append] at h
    rcases h with h | h <;> split_ifs at h with hc <;>
      simp only [List.mem_singleton, List.not_mem_nil] at h
    · exact h ▸ hc
    · exact h ▸ hc

/-- Claim C3 amended: a root returned by the quadratic solver is used to
expand the tight box only if it lies in the half-open interval [0,1): the
filter excludes roots equal to 1 but admits roots equal to 0. -/
theorem used_roots_in_halfopen (points : Seg) (t : ℝ)
    (h : t ∈ usedRootsX points ∨ t ∈ usedRootsY points) : 0 ≤ t ∧ t < 1 := by
  rcases h with h | h
  · exact filteredRoots_mem _ t h
  · exact filteredRoots_mem _ t h

/-- A concrete segment whose x coordinates are (0, 0, 1, 0): the x-axis
quadratic is -9 t^2 + 6 t = 0, with roots 0 and 2/3. -/
def segC3 : Seg :=
  ⟨⟨⟨0, 0⟩, ORANGE⟩, ⟨⟨0, 0⟩, BLUE⟩, ⟨⟨1, 0⟩, RED⟩, ⟨⟨0, 0⟩, PURPLE⟩⟩

/-- The square root of 36 is 6. -/
lemma sqrt_36 : Real.sqrt 36 = 6 := by
  rw [show (36:ℝ) = 6^2 by norm_num]
  exact Real.sqrt_sq (by norm_num)

/-- The solver on the x axis of segC3 returns the root pair (0, 2/3). -/
lemma solve_quadratic_segC3 : solve_quadratic 0 0 1 0 = some (0, 2/3) := by
  unfold solve_quadratic quadA quadB quadC
  norm_num [sqrt_36]

/-- On segC3 the tight-box x expansion uses exactly the roots 0 and 2/3. -/
lemma usedRootsX_segC3 : usedRootsX segC3 = [0, 2/3] := by
  have h : solve_quadratic segC3.p0.pos.x segC3.p1.pos.x segC3.p2.pos.x
      segC3.p3.pos.x = some (0, 2/3) := by
    simp only [segC3]
    exact solve_quadratic_segC3
  rw [usedRootsX, h, filteredRoots]
  norm_num

/-- Claim C3 counterexample: on the concrete segment segC3 the solver returns
the root 0, and the tight-bounding-box code uses it — the in-range filter is
the half-open interval [0,1), not the open interval (0,1), so a root equal to
0 is used. -/
theorem root_zero_is_used : (0:ℝ) ∈ usedRootsX segC3 := by
  rw [usedRootsX_segC3]
  simp

/-- Claim C3 amended, witness: the used root 0 of segC3 indeed lies in [0,1). -/
theorem used_roots_in_halfopen_witness :
    (0:ℝ) ∈ usedRootsX segC3 ∧ (0 ≤ (0:ℝ) ∧ (0:ℝ) < 1) :=
  ⟨by rw [usedRootsX_segC3]; simp,
   used_roots_in_halfopen segC3 0 (Or.inl (by rw [usedRootsX_segC3]; simp))⟩

/-- Claim C4 (code bug): on the degenerate axis input (0, 1, 2, 3) the
leading coefficient a is 0, yet the solver takes the nonnegative-delta branch
and returns a value instead of signalling a DegenerateAxis absence: the
division by 2a = 0 is unguarded (in f32 it yields NaN, silently). -/
theorem solve_quadratic_degenerate_unguarded :
    quadA 0 1 2 3 = 0 ∧ (solve_quadratic 0 1 2 3).isSome = true := by
  constructor
  · unfold quadA; norm_num
  · unfold solve_quadratic quadA quadB quadC
    norm_num

/-- macroquad GOLD. -/
def GOLD : Color := ⟨1, 0.8, 0, 1⟩

/-- BOUNDING_BOX_COLOR constant (src line 89). -/
def BOUNDING_BOX_COLOR : Color := BLUE

/-- BoundingBox (src lines 90-95): box extents plus the two draw colors. -/
structure BoundingBox where
  point_min : Vec2
  point_max : Vec2
  point_color : Color
  outline_color : Color

/-- The stride-3 windows of 4 consecutive control points yielded by
control.windows(4).step_by(3) (src line 207): windows start at offsets
0, 3, 6, ... and consecutive windows share an anchor point. -/
def windows4step3 : List Point → List Seg
  | a :: b :: c :: d :: rest => ⟨a, b, c, d⟩ :: windows4step3 (d :: rest)
  | _ => []
termination_by l => l.length
decreasing_by simp

/-- The samples one window contributes to the rendered cache: t = k * 0.0005
for k = 0, ..., 2000, which is the iterator (0..=2000).map(|t| t as f32 *
0.0005) of the render loop (src line 214) — 2001 parameter values. -/
def sampleList (use_casteljau : Bool) (w : Seg) : List Point :=
  (List.range 2001).map
    (fun (k : ℕ) => bezierEval use_casteljau w ((k : ℝ) * 0.0005))

/-- The Curve structure (src lines 113-119). -/
structure Curve where
  control : List Point
  rendered : List Point
  boxes : List BoundingBox
  modified : Bool

/-- The body of the window loop of Curve::render (src lines 207-263): for
each window in order, push its 2001 samples, then the coarse box of the
window, then the tight box of the window. -/
def renderWindows (use_casteljau : Bool) : List Seg → Curve → Curve
  | [], c => c
  | w :: rest, c =>
    renderWindows use_casteljau rest
      { c with
        rendered := c.rendered ++ sampleList use_casteljau w,
        boxes := c.boxes ++
          [⟨(bounding_box [w.p0, w.p1, w.p2, w.p3]).1,
            (bounding_box [w.p0, w.p1, w.p2, w.p3]).2,
            BOUNDING_BOX_COLOR, BOUNDING_BOX_COLOR⟩,
           ⟨(tight_bounding_box w).1, (tight_bounding_box w).2, RED, GOLD⟩] }

/-- Curve::render (src lines 194-266): iterate the stride-3 windows and clear
the modified flag at the end. -/
def Curve.render (c : Curve) (use_casteljau : Bool) : Curve :=
  { renderWindows use_casteljau (windows4step3 c.control) c with
    modified := false }

/-- Curve::draw (src lines 268-285): return immediately when fewer than 4
control points (WITHOUT touching the caches); otherwise, when modified, clear
both caches and rebuild. The draw-primitive calls are outside the model;
draw_bounding only selects what gets drawn. -/
def Curve.draw (c : Curve) (draw_bounding : Bool) (use_casteljau : Bool) :
    Curve :=
  if c.control.length < 4 then c
  else if c.modified then
    Curve.render { c with rendered := [], boxes := [] } use_casteljau
  else c

/-- The effect on the curve of the delete-on-right-click branch of main
(src lines 335-339): remove the control point at the index and mark modified. -/
def deleteControl (c : Curve) (id : ℕ) : Curve :=
  { c with control := c.control.eraseIdx id, modified := true }

/-- renderWindows does not touch the control sequence. -/
lemma renderWindows_control (use_casteljau : Bool) (ws : List Seg) :
    ∀ c : Curve, (renderWindows use_casteljau ws c).control = c.control := by
  induction ws with
  | nil => intro c; rfl
  | cons w rest ih => intro c; rw [renderWindows, ih]

/-- renderWindows appends the per-window sample lists in window order. -/
lemma renderWindows_rendered (use_casteljau : Bool) (ws : List Seg) :
    ∀ c : Curve, (renderWindows use_casteljau ws c).rendered =
      c.rendered ++ (ws.map (sampleList use_casteljau)).flatten := by
  induction ws with
  | nil => intro c; simp [renderWindows]
  | cons w rest ih =>
    intro c
    rw [renderWindows, ih]
    simp [List.append_assoc]

/-- Every window contributes exactly 2001 samples. -/
lemma sampleList_length (use_casteljau : Bool) (w : Seg) :
    (sampleList use_casteljau w).length = 2001 := by
  rw [sampleList, List.length_map, List.length_range]

/-- Rendered-cache characterization of Curve::render. -/
lemma render_rendered (c : Curve) (use_casteljau : Bool) :
    (Curve.render c use_casteljau).rendered =
      c.rendered ++ ((windows4step3 c.control).map
        (sampleList use_casteljau)).flatten := by
  rw [Curve.render]
  exact renderWindows_rendered use_casteljau (windows4step3 c.control) c

/-- Length characterization of Curve::render. -/
lemma render_rendered_length (c : Curve) (use_casteljau : Bool) :
    (Curve.render c use_casteljau).rendered.length =
      c.rendered.length + 2001 * (windows4step3 c.control).length := by
  have h : ∀ ws : List Seg,
      ((ws.map (sampleList use_casteljau)).flatten).length = 2001 * ws.length := by
    intro ws
    induction ws with
    | nil => simp
    | cons w rest ih =>
      rw [List.map_cons, List.flatten_cons, List.length_append, ih,
        sampleList_length, List.length_cons, Nat.mul_succ]
      omega
  rw [render_rendered, List.length_append, h]

/-- Curve::render does not touch the control sequence. -/
lemma render_control (c : Curve) (use_casteljau : Bool) :
    (Curve.render c use_casteljau).control = c.control := by
  rw [Curve.render]
  exact renderWindows_control use_casteljau (windows4step3 c.control) c

/-- Claim C9 amended: during a rebuild every segment is evaluated at the
fixed deterministic parameter set t = k * 0.0005 for k = 0, ..., 2000
(that is t = 0, 0.0005, ..., 1.0, but 2001 samples rather than 201), and the
sampled points are appended to the cache in segment order. -/
theorem render_appends_2001_samples_per_segment (c : Curve)
    (use_casteljau : Bool) :
    (Curve.render c use_casteljau).rendered =
      c.rendered ++ ((windows4step3 c.control).map
        (sampleList use_casteljau)).flatten ∧
    (Curve.render c use_casteljau).rendered.length =
      c.rendered.length + 2001 * (windows4step3 c.control).length :=
  ⟨render_rendered c use_casteljau, render_rendered_length c use_casteljau⟩

/-- The end-to-end fixture of the specification: control points (0,0),
(0,100), (100,100), (100,0) with the four palette colors, dirty, with empty
caches. -/
def curveFix : Curve :=
  ⟨[⟨⟨0, 0⟩, ORANGE⟩, ⟨⟨0, 100⟩, BLUE⟩, ⟨⟨100, 100⟩, RED⟩, ⟨⟨100, 0⟩, PURPLE⟩],
   [], [], true⟩

/-- The fixture has exactly one stride-3 window. -/
lemma windows4step3_curveFix : (windows4step3 curveFix.control).length = 1 := by
  simp [curveFix, windows4step3]

/-- Claim C9 counterexample: rendering the concrete 4-point fixture produces
2001 sampled points for its single segment, not the 201 samples the claim
states. -/
theorem render_sample_count_not_201 :
    (Curve.render curveFix false).rendered.length = 2001 ∧
    (Curve.render curveFix false).rendered.length ≠ 201 := by
  have h := render_rendered_length curveFix false
  rw [windows4step3_curveFix] at h
  constructor
  · rw [h]; norm_num [curveFix]
  · rw [h]; norm_num [curveFix]

/-- Claim C7 amended: a draw on a curve with fewer than 4 control points
returns the curve unchanged — it neither clears nor rebuilds the
sampled-curve and box caches, so stale cache contents persist. -/
theorem draw_under_four_is_noop (c : Curve) (draw_bounding use_casteljau : Bool)
    (h : c.control.length < 4) :
    Curve.draw c draw_bounding use_casteljau = c := by
  rw [Curve.draw, if_pos h]

/-- A curve with one control point and a stale nonempty rendered cache. -/
def curveStale : Curve := ⟨[⟨⟨0, 0⟩, ORANGE⟩], [⟨⟨1, 1⟩, RED⟩], [], true⟩

/-- Claim C7 amended, witness: drawing the one-point stale curve leaves it
unchanged. -/
theorem draw_under_four_is_noop_witness :
    curveStale.control.length < 4 ∧
    Curve.draw curveStale false false = curveStale :=
  ⟨by simp [curveStale],
   draw_under_four_is_noop curveStale false false (by simp [curveStale])⟩

/-- Claim C7 counterexample: draw the 4-point fixture (building a 2001-point
sampled cache), delete one control point leaving 3, and draw again: the draw
returns early and the sampled-curve cache is still nonempty — it is not
emptied as the claim states. -/
theorem draw_after_delete_keeps_stale_cache :
    (deleteControl (Curve.draw curveFix false false) 0).control.length = 3 ∧
    (Curve.draw (deleteControl (Curve.draw curveFix false false) 0)
      false false).rendered ≠ [] := by
  have hlen4 : ¬ curveFix.control.length < 4 := by simp [curveFix]
  have hdraw : Curve.draw curveFix false false =
      Curve.render { curveFix with rendered := [], boxes := [] } false := by
    rw [Curve.draw, if_neg hlen4]
    rfl
  have hctrl : (Curve.draw curveFix false false).control = curveFix.control := by
    rw [hdraw, render_control]
  have hlen : (Curve.draw curveFix false false).rendered.length = 2001 := by
    rw [hdraw]
    have h := render_rendered_length { curveFix with rendered := [], boxes := [] }
      false
    have hw : (windows4step3 ({ curveFix with rendered := [], boxes := [] } :
        Curve).control).length = 1 := windows4step3_curveFix
    rw [hw] at h
    rw [h]
    rfl
  have h3 : (deleteControl (Curve.draw curveFix false false) 0).control.length
      = 3 := by
    rw [deleteControl]
    show ((Curve.draw curveFix false false).control.eraseIdx 0).length = 3
    rw [hctrl, curveFix]
    rfl
  refine ⟨h3, ?_⟩
  have hnoop : Curve.draw (deleteControl (Curve.draw curveFix false false) 0)
      false false = deleteControl (Curve.draw curveFix false false) 0 := by
    rw [Curve.draw, if_pos (by rw [h3]; norm_num)]
  rw [hnoop]
  show (Curve.draw curveFix false false).rendered ≠ []
  intro hnil
  rw [hnil] at hlen
  simp at hlen

/-- The pointer distance of the collision scan (src line 327). -/
def pointDist (mx my : ℝ) (p : Point) : ℝ :=
  Real.sqrt ((mx - p.pos.x)^2 + (my - p.pos.y)^2)

/-- The collision loop of main (src lines 326-331): iterate over ALL control
points in index order with no break, overwriting the selection at every index
whose distance to the pointer is within CONTROLPOINT_RADIUS. -/
def selectLoop (mx my : ℝ) : List Point → ℕ → Option ℕ → Option ℕ
  | [], _, sel => sel
  | p :: rest, i, sel =>
    selectLoop mx my rest (i + 1)
      (if pointDist mx my p ≤ CONTROLPOINT_RADIUS then some i else sel)

/-- The selection scan run when no point is currently selected
(src lines 325-332). -/
def selectScan (control : List Point) (mx my : ℝ) : Option ℕ :=
  selectLoop mx my control 0 none

/-- If no point of the list is within the pick radius, the loop keeps the
incoming selection. -/
lemma selectLoop_no_hit (mx my : ℝ) (l : List Point) :
    ∀ (k : ℕ) (sel : Option ℕ),
      (∀ p ∈ l, ¬ pointDist mx my p ≤ CONTROLPOINT_RADIUS) →
      selectLoop mx my l k sel = sel := by
  induction l with
  | nil => intro k sel _; rfl
  | cons p rest ih =>
    intro k sel h
    rw [selectLoop, if_neg (h p (List.mem_cons_self p rest))]
    exact ih (k + 1) sel (fun q hq => h q (List.mem_cons_of_mem p hq))

/-- The loop returns the offset index of the last point within the pick
radius. -/
lemma selectLoop_last_hit (mx my : ℝ) (l : List Point) :
    ∀ (k : ℕ) (sel : Option ℕ) (i : ℕ) (hi : i < l.length),
      pointDist mx my (l.get ⟨i, hi⟩) ≤ CONTROLPOINT_RADIUS →
      (∀ j (hj : j < l.length), i < j →
        ¬ pointDist mx my (l.get ⟨j, hj⟩) ≤ CONTROLPOINT_RADIUS) →
      selectLoop mx my l k sel = some (k + i) := by
  induction l with
  | nil => intro k sel i hi; exact absurd hi (by simp)
  | cons p rest ih =>
    intro k sel i hi hhit hafter
    match i with
    | 0 =>
      have hp : pointDist mx my p ≤ CONTROLPOINT_RADIUS := by simpa using hhit
      have hnone : ∀ q ∈ rest, ¬ pointDist mx my q ≤ CONTROLPOINT_RADIUS := by
        intro q hq
        obtain ⟨⟨j, hj⟩, hget⟩ := List.mem_iff_get.mp hq
        have h2 := hafter (j + 1) (by simpa using Nat.succ_lt_succ hj)
          (Nat.succ_pos j)
        rw [← hget]
        simpa using h2
      rw [selectLoop, if_pos hp,
        selectLoop_no_hit mx my rest (k + 1) (some k) hnone, Nat.add_zero]
    | n + 1 =>
      rw [selectLoop]
      have hrec := ih (k + 1)
        (if pointDist mx my p ≤ CONTROLPOINT_RADIUS then some k else sel)
        n (Nat.lt_of_succ_lt_succ hi) (by simpa using hhit) ?_
      · rw [hrec]
        congr 1
        omega
      · intro j hj hgt
        have := hafter (j + 1) (by simpa using Nat.succ_lt_succ hj)
          (Nat.succ_lt_succ hgt)
        simpa using this

/-- A scan result is always an index into the control list. -/
lemma selectLoop_lt_length (mx my : ℝ) (l : List Point) :
    ∀ (k : ℕ) (sel : Option ℕ) (j : ℕ),
      selectLoop mx my l k sel = some j →
      sel = some j ∨ (k ≤ j ∧ j < k + l.length) := by
  induction l with
  | nil => intro k sel j h; exact Or.inl h
  | cons p rest ih =>
    intro k sel j h
    rcases ih (k + 1) _ j h with h2 | h2
    · by_cases hc : pointDist mx my p ≤ CONTROLPOINT_RADIUS
      · rw [if_pos hc] at h2
        have hkj : k = j := Option.some.inj h2
        right
        constructor
        · omega
        · simp only [List.length_cons]
          omega
      · rw [if_neg hc] at h2
        exact Or.inl h2
    · right
      obtain ⟨h3, h4⟩ := h2
      constructor
      · omega
      · simp only [List.length_cons]
        omega

/-- A scan that selects an index selects one below the list length. -/
lemma selectScan_lt_length (control : List Point) (mx my : ℝ) (j : ℕ)
    (h : selectScan control mx my = some j) : j < control.length := by
  rcases selectLoop_lt_length mx my control 0 none j h with h2 | h2
  · exact absurd h2 (by simp)
  · omega

/-- Claim C6 amended: when no point is selected, the scan visits the control
points in index order without stopping at the first hit, so the LAST control
point within the pick radius is the one selected: with the pointer equidistant
from two overlapping points, the higher index wins. -/
theorem selectScan_picks_last_match (control : List Point) (mx my : ℝ)
    (i : ℕ) (hi : i < control.length)
    (hhit : pointDist mx my (control.get ⟨i, hi⟩) ≤ CONTROLPOINT_RADIUS)
    (hafter : ∀ j (hj : j < control.length), i < j →
      ¬ pointDist mx my (control.get ⟨j, hj⟩) ≤ CONTROLPOINT_RADIUS) :
    selectScan control mx my = some i := by
  rw [selectScan, selectLoop_last_hit mx my control 0 none i hi hhit hafter]
  rw [Nat.zero_add]

/-- The distance from the pointer to a point at the pointer position is 0. -/
lemma pointDist_same (mx my : ℝ) (c : Color) :
    pointDist mx my ⟨⟨mx, my⟩, c⟩ = 0 := by
  rw [pointDist]
  norm_num [Real.sqrt_zero]

/-- Two control points stacked at the origin. -/
def ptsOverlap : List Point := [⟨⟨0, 0⟩, ORANGE⟩, ⟨⟨0, 0⟩, BLUE⟩]

/-- The concrete scan over the two overlapping points ends on index 1. -/
lemma selectScan_ptsOverlap : selectScan ptsOverlap 0 0 = some 1 := by
  have h0 : pointDist 0 0 (⟨⟨0, 0⟩, ORANGE⟩ : Point) = 0 := pointDist_same 0 0 _
  have h1 : pointDist 0 0 (⟨⟨0, 0⟩, BLUE⟩ : Point) = 0 := pointDist_same 0 0 _
  rw [selectScan, ptsOverlap]
  norm_num [selectLoop, h0, h1, CONTROLPOINT_RADIUS]

/-- Claim C6 counterexample: with two overlapping control points at the
pointer position, the scan does NOT return the lower index 0 — the loop keeps
overwriting and the later index wins. -/
theorem overlap_does_not_select_lowest : selectScan ptsOverlap 0 0 ≠ some 0 := by
  rw [selectScan_ptsOverlap]
  simp

/-- Claim C6 amended, witness: on the two overlapping points the scan selects
index 1, the higher one. -/
theorem selectScan_picks_last_match_witness : selectScan ptsOverlap 0 0 = some 1 :=
  selectScan_picks_last_match ptsOverlap 0 0 1 (by simp [ptsOverlap])
    (by
      have h : ptsOverlap.get ⟨1, by simp [ptsOverlap]⟩ = ⟨⟨0, 0⟩, BLUE⟩ := rfl
      rw [h, pointDist_same, CONTROLPOINT_RADIUS]
      norm_num)
    (by
      intro j hj hgt
      have h2 : j < 2 := by simpa [ptsOverlap] using hj
      omega)

/-- Per-tick inputs supplied by the window collaborator: pointer position
(src line 319), whether the primary button is held (src line 352), whether it
was pressed this tick (src line 344) and whether the secondary button was
pressed this tick (src line 336). -/
structure Input where
  mx : ℝ
  my : ℝ
  leftDown : Bool
  leftPressed : Bool
  rightPressed : Bool

/-- The mutable state of the main loop touched by the interaction rules
(src lines 308-312): the curve, the current selection, and the position in
the cyclic color palette iterator. -/
structure MainState where
  curve : Curve
  selected : Option ℕ
  paletteIdx : ℕ

/-- The cyclic palette iterator [ORANGE, BLUE, RED, PURPLE] cycled
(src line 308): element n of the iterator. -/
def palette (n : ℕ) : Color :=
  match n % 4 with
  | 0 => ORANGE
  | 1 => BLUE
  | 2 => RED
  | _ => PURPLE

/-- Insert-on-left-click and release stages of a tick (src lines 342-354):
when nothing is selected and the primary button was pressed, append a point
at the pointer with the next palette color and mark modified; afterwards, if
the primary button is not held, clear the selection. These stages cannot
panic. -/
def tickInsert (s : MainState) (inp : Input) : MainState :=
  let s2 :=
    if s.selected = none ∧ inp.leftPressed then
      { s with
        curve := { s.curve with
          control := s.curve.control ++
            [⟨⟨inp.mx, inp.my⟩, palette s.paletteIdx⟩],
          modified := true },
        paletteIdx := s.paletteIdx + 1 }
    else s
  if inp.leftDown then s2 else { s2 with selected := none }

/-- Delete stage of a tick (src lines 334-340), then the later stages: when a
point is selected and the secondary button was pressed, remove it and mark
modified. Vec::remove panics when the index is out of range, embedded as
none. The selection is NOT cleared by a delete. -/
def tickDelete (s : MainState) (inp : Input) : Option MainState :=
  match s.selected with
  | some id =>
    if inp.rightPressed then
      if id < s.curve.control.length then
        some (tickInsert
          { s with curve := { s.curve with
              control := s.curve.control.eraseIdx id,
              modified := true } } inp)
      else none
    else some (tickInsert s inp)
  | none => some (tickInsert s inp)

/-- One interaction tick (src lines 319-354): drag the selected point to the
pointer (indexing panics, embedded as none, when the selection is out of
range), or scan for a new selection when nothing is selected; then run the
delete, insert and release stages. -/
def tick (s : MainState) (inp : Input) : Option MainState :=
  match s.selected with
  | some id =>
    if h : id < s.curve.control.length then
      tickDelete
        { s with curve := { s.curve with
            control := s.curve.control.set id
              ⟨⟨inp.mx, inp.my⟩, (s.curve.control.get ⟨id, h⟩).color⟩,
            modified := true } } inp
    else none
  | none =>
    tickDelete { s with selected := selectScan s.curve.control inp.mx inp.my }
      inp

/-- Run a sequence of ticks, stopping at the first panic. -/
def tickRun (s : MainState) : List Input → Option MainState
  | [] => some s
  | i :: rest =>
    match tick s i with
    | none => none
    | some s2 => tickRun s2 rest

/-- Claim C8 amended: one tick of drag/select/delete/insert handling cannot
panic provided the incoming selection index (when present) is within the
control sequence; the unprotected case is the stale out-of-range selection
left behind by deleting the dragged point while the primary button stays
held, and the next tick then panics on the drag indexing. -/
theorem tick_no_panic_of_selection_in_range (s : MainState) (inp : Input)
    (hsel : ∀ id, s.selected = some id → id < s.curve.control.length) :
    (tick s inp).isSome = true := by
  obtain ⟨curve, sel, pIdx⟩ := s
  obtain ⟨mx, my, leftDown, leftPressed, rightPressed⟩ := inp
  cases sel with
  | some id =>
    have hid : id < curve.control.length := hsel id rfl
    simp only [tick]
    rw [dif_pos hid]
    simp only [tickDelete]
    cases rightPressed with
    | true =>
      simp only [if_true]
      rw [if_pos (by rw [List.length_set]; exact hid)]
      rfl
    | false =>
      simp only [Bool.false_eq_true, if_false]
      rfl
  | none =>
    simp only [tick, tickDelete]
    cases hscan : selectScan curve.control mx my with
    | none => rfl
    | some j =>
      have hj : j < curve.control.length :=
        selectScan_lt_length curve.control mx my j hscan
      cases rightPressed with
      | true =>
        simp only [if_true]
        rw [if_pos hj]
        rfl
      | false =>
        simp only [Bool.false_eq_true, if_false]
        rfl

/-- The empty initial state of main (src lines 308-312): empty dirty curve,
no selection, palette at the start. -/
def st0 : MainState := ⟨⟨[], [], [], true⟩, none, 0⟩

/-- Claim C8 amended, witness: the first tick from the initial state (primary
button pressed at (5,5)) does not panic. -/
theorem tick_no_panic_witness :
    (tick st0 ⟨5, 5, true, true, false⟩).isSome = true :=
  tick_no_panic_of_selection_in_range st0 ⟨5, 5, true, true, false⟩
    (by intro id h; simp [st0] at h)

/-- Claim C8 counterexample: press the primary button on an empty canvas to
insert a point (tick 1); keep holding over it so the scan selects it
(tick 2); press the secondary button while still holding to delete it
(tick 3) — the release stage keeps the selection because the primary button
is still held; on tick 4 the drag step indexes control[0] of the now empty
control sequence, an out-of-bounds panic. -/
theorem delete_while_dragging_panics :
    tickRun st0
      [⟨5, 5, true, true, false⟩, ⟨5, 5, true, false, false⟩,
       ⟨5, 5, true, false, true⟩, ⟨9, 9, true, false, false⟩] = none := by
  have hp : pointDist 5 5 (⟨⟨5, 5⟩, ORANGE⟩ : Point) = 0 := pointDist_same 5 5 _
  have h1 : tick st0 ⟨5, 5, true, true, false⟩ =
      some ⟨⟨[⟨⟨5, 5⟩, ORANGE⟩], [], [], true⟩, none, 1⟩ := by
    norm_num [tick, tickDelete, tickInsert, selectScan, selectLoop, st0,
      palette]
  have h2 : tick ⟨⟨[⟨⟨5, 5⟩, ORANGE⟩], [], [], true⟩, none, 1⟩
        ⟨5, 5, true, false, false⟩ =
      some ⟨⟨[⟨⟨5, 5⟩, ORANGE⟩], [], [], true⟩, some 0, 1⟩ := by
    norm_num [tick, tickDelete, tickInsert, selectScan, selectLoop, hp,
      CONTROLPOINT_RADIUS]
  have h3 : tick ⟨⟨[⟨⟨5, 5⟩, ORANGE⟩], [], [], true⟩, some 0, 1⟩
        ⟨5, 5, true, false, true⟩ =
      some ⟨⟨[], [], [], true⟩, some 0, 1⟩ := by
    norm_num [tick, tickDelete, tickInsert, List.eraseIdx]
  have h4 : tick ⟨⟨[], [], [], true⟩, some 0, 1⟩ ⟨9, 9, true, false, false⟩ =
      none := by
    norm_num [tick]
  simp only [tickRun, h1, h2, h3, h4]

end

end Bezier
